import Mathlib

/-!
Shallow embedding, in Lean 4, of the core of the wuzz interactive HTTP
inspector (package `main`, `config` and `formatter` of github.com/asciimoo/wuzz).

Conventions of the embedding:
* Go strings are modelled as Lean `String`; all list-level work happens on
  `String.toList` so every definition is executable by the kernel.
* Go slices that can be `nil` are modelled as `Option`; `none` models `nil`.
* Stateful code (the gocui views, the `App` struct) is modelled by explicit
  state records; the asynchronous request goroutine of `SubmitRequest` is
  modelled as a pure pipeline (`Except` short-circuits the early `return`s),
  with the network exchange, and the filesystem used by multipart uploads,
  passed in as explicit parameters.
* Calls into the Go standard library (`net/url`, `mime`, `strings`,
  `net/http` header canonicalisation) are translated alongside the
  repository code they serve, restricted to the behaviour the repository
  exercises; each such definition carries a comment naming the Go function.
-/

namespace Wuzz

/-- Decidable equality for `Except`, used to evaluate the embedded
error-or-result pipelines on concrete inputs. -/
instance {ε α : Type} [DecidableEq ε] [DecidableEq α] : DecidableEq (Except ε α) := fun x y =>
  match x, y with
  | .error a, .error b =>
    if h : a = b then .isTrue (congrArg Except.error h)
    else .isFalse (fun hh => h (Except.error.inj hh))
  | .error _, .ok _ => .isFalse (fun hh => Except.noConfusion hh)
  | .ok _, .error _ => .isFalse (fun hh => Except.noConfusion hh)
  | .ok a, .ok b =>
    if h : a = b then .isTrue (congrArg Except.ok h)
    else .isFalse (fun hh => h (Except.ok.inj hh))

/-! ### Character and string primitives (Go `strings` / `unicode`) -/

/-- Model of Go `unicode.IsSpace`, restricted to the Latin-1 range Go
special-cases (`'\t' '\n' '\v' '\f' '\r' ' '` plus U+0085, U+00A0). -/
def isSpaceChar (c : Char) : Bool :=
  c = ' ' || c = '\t' || c = '\n' || c = (Char.ofNat 11) || c = (Char.ofNat 12) ||
  c = '\r' || c = (Char.ofNat 0x85) || c = (Char.ofNat 0xA0)

/-- Removal of a maximal trailing run of characters satisfying `p`. -/
def trimRight (p : Char → Bool) : List Char → List Char
  | [] => []
  | a :: l =>
    match trimRight p l with
    | [] => if p a then [] else [a]
    | b :: l2 => a :: b :: l2

/-- Model of Go `strings.TrimSpace`: drop leading and trailing whitespace. -/
def trimSpace (s : String) : String :=
  String.mk (trimRight isSpaceChar (s.toList.dropWhile isSpaceChar))

def splitOnCharAux (c : Char) : List Char → List Char → List (List Char)
  | [], acc => [acc.reverse]
  | x :: xs, acc =>
    if x = c then acc.reverse :: splitOnCharAux c xs []
    else splitOnCharAux c xs (x :: acc)

/-- Model of Go `strings.Split` with a one-character separator. -/
def splitOnChar (c : Char) (s : String) : List String :=
  (splitOnCharAux c s.toList []).map String.mk

/-- Model of Go `strings.Replace(s, old, new, -1)` for one-character `old` and
`new` (the only shape the repository uses, e.g. `"\n"` to `"&"`). -/
def replaceChar (old new : Char) (s : String) : String :=
  String.mk (s.toList.map (fun c => if c = old then new else c))

def listStartsWith : List Char → List Char → Bool
  | [], _ => true
  | _ :: _, [] => false
  | p :: ps, x :: xs => p = x && listStartsWith ps xs

/-- Model of Go `strings.Contains` (non-empty pattern scanned left to right). -/
def listContainsSub (pat : List Char) : List Char → Bool
  | [] => listStartsWith pat []
  | x :: xs => listStartsWith pat (x :: xs) || listContainsSub pat xs

def strContains (s pat : String) : Bool :=
  listContainsSub pat.toList s.toList

/-- Model of Go `strings.HasSuffix`. -/
def strHasSuffix (s suf : String) : Bool :=
  listStartsWith suf.toList.reverse s.toList.reverse

/-- Cut `l` at the first occurrence of `pat`, returning the pieces before and
after it; `none` when `pat` does not occur.  Models Go `strings.Cut` /
the splitting step of `strings.SplitN(s, sep, 2)`. -/
def listCutAt (pat : List Char) : List Char → Option (List Char × List Char)
  | [] => if pat = [] then some ([], []) else none
  | x :: xs =>
    if listStartsWith pat (x :: xs) then some ([], (x :: xs).drop pat.length)
    else match listCutAt pat xs with
      | some (a, b) => some (x :: a, b)
      | none => none

/-- Model of Go `strings.SplitN(s, sep, 2)`: one or two pieces. -/
def splitN2 (s sep : String) : List String :=
  match listCutAt sep.toList s.toList with
  | some (a, b) => [String.mk a, String.mk b]
  | none => [s]

/-- Model of Go `strings.Cut(s, sep)` for a one-character separator, returning
`(before, after, found)` as `(before, after)` with `after := ""` when absent. -/
def cutChar (c : Char) (s : String) : String × String :=
  match listCutAt [c] s.toList with
  | some (a, b) => (String.mk a, String.mk b)
  | none => (s, "")

/-- Model of Go `strings.ToLower` (ASCII range; the repository only lowercases
header and media-type text). -/
def toLowerStr (s : String) : String :=
  String.mk (s.toList.map Char.toLower)

/-- Byte-wise "less or equal" on strings, as used by Go `sort.Strings`
(lexicographic on bytes; identical to char order for the ASCII data here). -/
def charsLe : List Char → List Char → Bool
  | [], _ => true
  | _ :: _, [] => false
  | x :: xs, y :: ys =>
    if x = y then charsLe xs ys else decide (x.val < y.val)

def strLe (a b : String) : Bool := charsLe a.toList b.toList

def insertLe {α : Type} (le : α → α → Bool) (a : α) : List α → List α
  | [] => [a]
  | x :: xs => if le a x then a :: x :: xs else x :: insertLe le a xs

/-- Insertion sort standing in for Go `sort.Strings` / `sort.Slice` (only the
sortedness of the output is relevant; ties keep first-come order). -/
def sortLe {α : Type} (le : α → α → Bool) : List α → List α
  | [] => []
  | x :: xs => insertLe le x (sortLe le xs)

/-! ### Pane coordinate resolution (`wuzz.go`, `position.getCoordinate`) -/

/-- Model of the `position` struct of `wuzz.go`: `value = pct * MAX + abs`.
The Go field `pct` is a `float32`; it is modelled as an exact rational.  Every
fraction the claims instantiate (`0.0`, `0.25`, `0.5`, `1.0`) and every
product they take is exactly representable in `float32`, so the rational
model agrees with the Go arithmetic at those points. -/
structure Position where
  pct : ℚ
  abs : ℤ
deriving DecidableEq

/-- Truncation toward zero, the semantics of the Go `int(f)` conversion from a
floating-point value. -/
def truncToZero (q : ℚ) : ℤ :=
  if 0 ≤ q then ⌊q⌋ else -⌊-q⌋

/-- Model of `position.getCoordinate` of `wuzz.go`:
`int(p.pct*float32(max)) + p.abs`. -/
def Position.getCoordinate (p : Position) (max : ℤ) : ℤ :=
  truncToZero (p.pct * (max : ℚ)) + p.abs

/-- Rendering of the claim wording "round(fraction × dimension)": standard
rounding, half away from zero for the nonnegative arguments at issue.  This
definition follows the spec text, not the source, and exists only to compare
the two. -/
def roundHalfUp (q : ℚ) : ℤ := ⌊q + 1/2⌋

/-! ### Formatter dispatch (`formatter/formatter.go`, `mime.ParseMediaType`) -/

/-- Content type table of `config/config.go` (`config.ContentTypes["json"]`). -/
def contentTypeJSON : String := "application/json"

/-- Model of Go `mime` `isTokenChar`: any char above space and below DEL that
is not a tspecial. -/
def isTokenCharMime (c : Char) : Bool :=
  0x20 < c.val && c.val < 0x7f &&
  !("()<>@,;:\\\"/[]?=".toList.contains c)

/-- Model of Go `mime` `checkMediaTypeDisposition`: a token, optionally
followed by `/` and a second token. -/
def checkMediaTypeDisposition (s : String) : Bool :=
  match listCutAt ['/'] s.toList with
  | none => s.toList ≠ [] && s.toList.all isTokenCharMime
  | some (a, b) =>
      a ≠ [] && a.all isTokenCharMime && b ≠ [] && b.all isTokenCharMime

/-- Span of token characters at the head of the input (Go `mime`
`consumeToken`). -/
def consumeToken (l : List Char) : List Char × List Char :=
  (l.takeWhile isTokenCharMime, l.dropWhile isTokenCharMime)

/-- Quoted-string tail after the opening `"` (Go `mime` `consumeValue`,
quoted branch): ends at the closing quote, `\` escapes the next printable. -/
def consumeQuoted : List Char → Option (List Char × List Char)
  | [] => none
  | '"' :: rest => some ([], rest)
  | '\\' :: c :: rest =>
    if 0x20 < c.val && c.val < 0x7f then
      match consumeQuoted rest with
      | some (v, r) => some (c :: v, r)
      | none => none
    else none
  | c :: rest =>
    if c = '\r' || c = '\n' then none
    else match consumeQuoted rest with
      | some (v, r) => some (c :: v, r)
      | none => none

/-- Model of Go `mime` `consumeValue`: a token, or a quoted string. -/
def consumeValue (l : List Char) : Option (List Char × List Char) :=
  match l with
  | '"' :: rest => consumeQuoted rest
  | _ =>
    let (v, rest) := consumeToken l
    if v = [] then none else some (v, rest)

/-- One `; key=value` parameter (Go `mime` `consumeMediaParam`); returns the
lowercased key and the remaining input, or `none` on malformed input. -/
def consumeMediaParam (l : List Char) : Option (List Char × List Char) :=
  let r0 := l.dropWhile isSpaceChar
  match r0 with
  | ';' :: r1 =>
    let r2 := r1.dropWhile isSpaceChar
    let (p, r3) := consumeToken r2
    if p = [] then none
    else
      let r4 := r3.dropWhile isSpaceChar
      match r4 with
      | '=' :: r5 =>
        let r6 := r5.dropWhile isSpaceChar
        match consumeValue r6 with
        | some (_, r7) => some (p.map Char.toLower, r7)
        | none => none
      | _ => none
  | _ => none

/-- Parameter loop of Go `mime.ParseMediaType` (continuation `*0` suffix
merging is not modelled — no claim uses multi-segment parameters).  Returns
`true` when every parameter parses and no parameter name repeats; a bare
trailing `;` is tolerated. -/
def paramsOK (fuel : Nat) (seen : List (List Char)) (l : List Char) : Bool :=
  match fuel with
  | 0 => false
  | fuel + 1 =>
    let v := l.dropWhile isSpaceChar
    if v = [] then true
    else match consumeMediaParam v with
      | none => (String.mk v).toList.dropWhile isSpaceChar = [';']
      | some (p, rest) =>
        if seen.contains p then false
        else paramsOK fuel (p :: seen) rest

/-- Model of Go `mime.ParseMediaType`, reduced to what `formatter.New`
observes: the lowercased media type on success, `none` when Go would return a
non-nil error (bad disposition, malformed or duplicate parameter). -/
def parseMediaType (v : String) : Option String :=
  let base := (cutChar ';' v).1
  let mt := toLowerStr (trimSpace base)
  if checkMediaTypeDisposition mt then
    let rest := v.toList.drop base.toList.length
    if paramsOK (rest.length + 1) [] rest then some mt else none
  else none

/-- The four formatter variants of the `formatter` package. -/
inductive FormatterKind where
  | json
  | html
  | binary
  | text
deriving DecidableEq, Repr

/-- First branch condition of `formatter.New`: `err == nil &&
appConfig.General.FormatJSON && (ctype == config.ContentTypes["json"] ||
strings.HasSuffix(ctype, "+json"))`. -/
def jsonDispatchCond (formatJSON : Bool) (contentType : String) : Bool :=
  match parseMediaType contentType with
  | some ctype => formatJSON && (ctype = contentTypeJSON || strHasSuffix ctype "+json")
  | none => false

namespace formatter

/-- Model of `formatter.New` of `formatter/formatter.go`.  The
`appConfig.General.FormatJSON` flag is the `formatJSON` parameter
(`true` in `config.DefaultConfig`). -/
def New (formatJSON : Bool) (contentType : String) : FormatterKind :=
  if jsonDispatchCond formatJSON contentType then
    .json
  else if strContains contentType "text/html" then
    .html
  else if !strContains contentType "text" && !strContains contentType "application" then
    .binary
  else
    .text

end formatter

/-! ### Query strings (Go `net/url`: `ParseQuery`, `Values`, `Encode`) -/

def hexDigitValue (c : Char) : Option Nat :=
  let n := c.toNat
  if 48 ≤ n && n ≤ 57 then some (n - 48)
  else if 97 ≤ n && n ≤ 102 then some (n - 87)
  else if 65 ≤ n && n ≤ 70 then some (n - 55)
  else none

/-- Model of Go `url.QueryUnescape`: `+` becomes a space, `%XX` decodes a hex
escape (malformed escapes are an error), other characters pass through.
Escaped bytes are modelled as code points, exact on the ASCII data here. -/
def unescapeList : List Char → Option (List Char)
  | [] => some []
  | '%' :: a :: b :: rest =>
    match hexDigitValue a, hexDigitValue b with
    | some x, some y =>
      match unescapeList rest with
      | some l => some (Char.ofNat (16 * x + y) :: l)
      | none => none
    | _, _ => none
  | '%' :: _ => none
  | '+' :: rest =>
    match unescapeList rest with
    | some l => some (' ' :: l)
    | none => none
  | c :: rest =>
    match unescapeList rest with
    | some l => some (c :: l)
    | none => none

def queryUnescape (s : String) : Option String :=
  (unescapeList s.toList).map String.mk

def upperHexDigit (n : Nat) : Char :=
  if n < 10 then Char.ofNat ('0'.toNat + n) else Char.ofNat ('A'.toNat + n - 10)

/-- Model of Go `url.QueryEscape`: unreserved characters (alphanumeric and
`-_.~`) stay, a space becomes `+`, everything else becomes `%XX`. -/
def queryEscapeChar (c : Char) : List Char :=
  if c.isAlphanum || c = '-' || c = '_' || c = '.' || c = '~' then [c]
  else if c = ' ' then ['+']
  else ['%', upperHexDigit (c.toNat / 16 % 16), upperHexDigit (c.toNat % 16)]

def queryEscape (s : String) : String :=
  String.mk (s.toList.flatMap queryEscapeChar)

/-- Model of Go `url.Values`: a map from keys to value lists.  The Go map is
modelled as an association list with unique keys; iteration order of a Go map
is unspecified, but nothing the repository observes depends on it (`Encode`
sorts the keys, and each loop body touches a single key). -/
abbrev Values : Type := List (String × List String)

/-- Model of `url.Values.Add`: append the value to the list for the key. -/
def valuesAdd (vs : Values) (k v : String) : Values :=
  match vs with
  | [] => [(k, [v])]
  | (k1, l1) :: rest =>
    if k1 = k then (k1, l1 ++ [v]) :: rest
    else (k1, l1) :: valuesAdd rest k v

def valuesFind (vs : Values) (k : String) : Option (List String) :=
  match vs with
  | [] => none
  | (k1, l1) :: rest => if k1 = k then some l1 else valuesFind rest k

/-- Value list stored under a key (`v[key]` in Go; `[]` when absent). -/
def valuesList (vs : Values) (k : String) : List String :=
  (valuesFind vs k).getD []

/-- One iteration of the Go `parseQuery` loop over a `&`-separated segment:
a segment containing `;` is an error, an empty segment is skipped, otherwise
the segment is cut at the first `=` and both halves are query-unescaped. -/
def parseQuerySeg (acc : Values × Bool) (seg : String) : Values × Bool :=
  if strContains seg ";" then (acc.1, false)
  else if seg = "" then acc
  else
    match queryUnescape (cutChar '=' seg).1, queryUnescape (cutChar '=' seg).2 with
    | some k, some v => (valuesAdd acc.1 k v, acc.2)
    | _, _ => (acc.1, false)

/-- Model of the Go `parseQuery` worker: the accumulated `Values` plus a flag
recording whether every segment parsed (Go accumulates the first error but
keeps going). -/
def parseQueryCore (s : String) : Values × Bool :=
  (splitOnChar '&' s).foldl parseQuerySeg ([], true)

/-- Model of Go `url.ParseQuery` as used with an error check
(`q, err := url.ParseQuery(..); if err != nil { abort }`). -/
def ParseQuery (s : String) : Option Values :=
  let r := parseQueryCore s
  if r.2 then some r.1 else none

/-- Model of Go `URL.Query()`, which calls `ParseQuery` and discards the
error, keeping the segments that did parse. -/
def urlQueryValues (rawQuery : String) : Values :=
  (parseQueryCore rawQuery).1

/-- Model of `url.Values.Encode`: keys sorted byte-wise, every `key=value`
pair escaped and joined by `&`. -/
def valuesEncode (vs : Values) : String :=
  let ks := sortLe strLe (vs.map Prod.fst)
  String.intercalate "&"
    (ks.flatMap (fun k => (valuesList vs k).map (fun v => queryEscape k ++ "=" ++ queryEscape v)))

/-- Subset of Go `url.URL` that `SubmitRequest` observes: the part before the
query, the raw query, and the fragment. -/
structure URL where
  pre : String
  rawQuery : String
  fragment : String
deriving DecidableEq, Repr

/-- Model of Go `url.Parse` for the URLs at issue: the fragment is split off
at the first `#`, the raw query at the first `?`; inputs holding ASCII
control characters are rejected, as in Go.  Further Go-side validation
(scheme shape, percent escapes, host syntax) is not modelled; every theorem
below either takes a successful parse as a hypothesis or instantiates a URL
Go accepts. -/
def urlParse (s : String) : Option URL :=
  if s.toList.any (fun c => c.val < 0x20 || c.val = 0x7f) then none
  else
    let cut1 := cutChar '#' s
    let cut2 := cutChar '?' cut1.1
    some ⟨cut2.1, cut2.2, cut1.2⟩

/-! ### Request headers (Go `net/http.Header`) -/

/-- Model of the token characters accepted in a header field name
(`httpguts.ValidHeaderFieldName`); also the characters of a valid HTTP
method. -/
def isHeaderTokenChar (c : Char) : Bool :=
  c.isAlphanum ||
  "!#$%&*+-.^_|~".toList.contains c || c = Char.ofNat 0x27 || c = Char.ofNat 0x60

def canonicalHeaderChars : List Char → Bool → List Char
  | [], _ => []
  | a :: l, upper =>
    (if upper then a.toUpper else a.toLower) :: canonicalHeaderChars l (a = '-')

/-- Model of Go `textproto.CanonicalMIMEHeaderKey`: a valid key is
canonicalised (uppercase at the start and after each `-`, lowercase
elsewhere); a key with an invalid character is returned unchanged. -/
def canonicalHeaderKey (s : String) : String :=
  if s.toList.all isHeaderTokenChar then String.mk (canonicalHeaderChars s.toList true)
  else s

/-- Model of Go `http.Header`, a map from canonical keys to value lists,
as an association list with unique keys in first-set order. -/
abbrev Headers : Type := List (String × List String)

def headersSetCanon (hs : Headers) (k v : String) : Headers :=
  match hs with
  | [] => [(k, [v])]
  | (k1, l1) :: rest =>
    if k1 = k then (k1, [v]) :: rest
    else (k1, l1) :: headersSetCanon rest k v

/-- Model of `http.Header.Set`: canonicalise the key, replace the values. -/
def headersSet (hs : Headers) (k v : String) : Headers :=
  headersSetCanon hs (canonicalHeaderKey k) v

/-- Model of `http.Header.Get`: canonicalise the key, first stored value or
the empty string. -/
def headersGet (hs : Headers) (k : String) : String :=
  match valuesFind hs (canonicalHeaderKey k) with
  | some (v :: _) => v
  | _ => ""

/-- Header-pane parsing loop of `SubmitRequest` (`wuzz.go` lines 747-760):
every non-empty line must split as `Name: Value` at the first `": "`;
the first line that does not aborts with the inline message. -/
def parseHeaderLines : List String → Headers → Except String Headers
  | [], hs => .ok hs
  | line :: rest, hs =>
    if line = "" then parseHeaderLines rest hs
    else
      match splitN2 line ": " with
      | [a, b] => parseHeaderLines rest (headersSet hs a b)
      | _ => .error ("Invalid header: " ++ line)

/-! ### JSON documents (`gjson` parsing/paths, `jsoncolor` pretty-printing) -/

mutual

/-- JSON documents.  Numbers are modelled as integers: every numeric literal
the claims exercise is integral, and for integral numbers the gjson textual
form coincides with integer printing.  Element and member lists are a mutual
inductive group (rather than nested `List`s) so that every function below is
plain structural recursion, executable by the kernel. -/
inductive Json where
  | null
  | bool (b : Bool)
  | num (n : ℤ)
  | str (s : String)
  | arr (elems : JsonList)
  | obj (fields : JsonFields)

inductive JsonList where
  | nil
  | cons (hd : Json) (tl : JsonList)

inductive JsonFields where
  | nil
  | cons (key : String) (val : Json) (tl : JsonFields)

end

def isJsonWs (c : Char) : Bool :=
  c = ' ' || c = '\t' || c = '\n' || c = '\r'

/-- Remainder of a JSON string literal after its opening quote.  The common
escapes are handled; `\u` code units are not modelled (unused by the
claims). -/
def parseStrChars : List Char → Option (List Char × List Char)
  | [] => none
  | '"' :: rest => some ([], rest)
  | '\\' :: e :: rest =>
    let c :=
      if e = 'n' then '\n' else if e = 't' then '\t' else if e = 'r' then '\r' else e
    match parseStrChars rest with
    | some (cs, r) => some (c :: cs, r)
    | none => none
  | c :: rest =>
    match parseStrChars rest with
    | some (cs, r) => some (c :: cs, r)
    | none => none

def digitsVal (ds : List Char) : Nat :=
  ds.foldl (fun acc c => 10 * acc + (c.toNat - 48)) 0

/-- Integer JSON number at the head of the input (fractions and exponents are
not modelled; the claims only exercise integral scalars). -/
def parseNumber (l : List Char) : Option (ℤ × List Char) :=
  match l with
  | '-' :: rest =>
    let ds := rest.takeWhile Char.isDigit
    if ds = [] then none else some (-(digitsVal ds : ℤ), rest.drop ds.length)
  | _ =>
    let ds := l.takeWhile Char.isDigit
    if ds = [] then none else some ((digitsVal ds : ℤ), l.drop ds.length)

mutual

/-- Recursive-descent JSON value parser (fuel-indexed so that every
definition stays structurally recursive and kernel-executable). -/
def parseVal : Nat → List Char → Option (Json × List Char)
  | 0, _ => none
  | fuel + 1, l =>
    match l.dropWhile isJsonWs with
    | 'n' :: 'u' :: 'l' :: 'l' :: rest => some (.null, rest)
    | 't' :: 'r' :: 'u' :: 'e' :: rest => some (.bool true, rest)
    | 'f' :: 'a' :: 'l' :: 's' :: 'e' :: rest => some (.bool false, rest)
    | '"' :: rest =>
      match parseStrChars rest with
      | some (cs, r) => some (.str (String.mk cs), r)
      | none => none
    | '[' :: rest =>
      match rest.dropWhile isJsonWs with
      | ']' :: r => some (.arr .nil, r)
      | rest2 =>
        match parseVal fuel rest2 with
        | some (v, r) =>
          match parseArrRest fuel r with
          | some (vs, r2) => some (.arr (.cons v vs), r2)
          | none => none
        | none => none
    | '\x7b' :: rest =>
      match rest.dropWhile isJsonWs with
      | '\x7d' :: r => some (.obj .nil, r)
      | rest2 =>
        match parseMember fuel rest2 with
        | some (k, v, r) =>
          match parseObjRest fuel r with
          | some (kvs, r2) => some (.obj (.cons k v kvs), r2)
          | none => none
        | none => none
    | rest =>
      match parseNumber rest with
      | some (n, r) => some (.num n, r)
      | none => none

def parseArrRest : Nat → List Char → Option (JsonList × List Char)
  | 0, _ => none
  | fuel + 1, l =>
    match l.dropWhile isJsonWs with
    | ']' :: r => some (.nil, r)
    | ',' :: r =>
      match parseVal fuel r with
      | some (v, r2) =>
        match parseArrRest fuel r2 with
        | some (vs, r3) => some (.cons v vs, r3)
        | none => none
      | none => none
    | _ => none

def parseMember : Nat → List Char → Option (String × Json × List Char)
  | 0, _ => none
  | fuel + 1, l =>
    match l.dropWhile isJsonWs with
    | '"' :: rest =>
      match parseStrChars rest with
      | some (k, r) =>
        match r.dropWhile isJsonWs with
        | ':' :: r2 =>
          match parseVal fuel r2 with
          | some (v, r3) => some (String.mk k, v, r3)
          | none => none
        | _ => none
      | none => none
    | _ => none

def parseObjRest : Nat → List Char → Option (JsonFields × List Char)
  | 0, _ => none
  | fuel + 1, l =>
    match l.dropWhile isJsonWs with
    | '\x7d' :: r => some (.nil, r)
    | ',' :: r =>
      match parseMember fuel r with
      | some (k, v, r2) =>
        match parseObjRest fuel r2 with
        | some (kvs, r3) => some (.cons k v kvs, r3)
        | none => none
      | none => none
    | _ => none

end

/-- Whole-input JSON parse (model of the parsing shared by `gjson.ParseBytes`
and the `jsoncolor` formatter on the documents at issue). -/
def parseJson (s : String) : Option Json :=
  match parseVal (s.toList.length + 1) s.toList with
  | some (v, rest) => if rest.dropWhile isJsonWs = [] then some v else none
  | none => none

def indentStr (depth : Nat) : String :=
  String.mk (List.replicate (2 * depth) ' ')

def jsonQuote (s : String) : String :=
  "\"" ++
    String.mk (s.toList.flatMap
      (fun c => if c = '"' then ['\\', '"'] else if c = '\\' then ['\\', '\\'] else [c])) ++
  "\""

mutual

/-- Model of the `jsoncolor` pretty-printer used by the JSON formatter
(two-space indentation; the ANSI colour escapes it interleaves are pure
presentation and are omitted). -/
def prettyVal : Json → Nat → String
  | .null, _ => "null"
  | .bool true, _ => "true"
  | .bool false, _ => "false"
  | .num n, _ => toString n
  | .str s, _ => jsonQuote s
  | .arr .nil, _ => "[]"
  | .arr (.cons x xs), depth =>
    "[\n" ++ prettyElems (.cons x xs) (depth + 1) ++ "\n" ++ indentStr depth ++ "]"
  | .obj .nil, _ => "\x7b\x7d"
  | .obj (.cons k v kvs), depth =>
    "\x7b\n" ++ prettyFields (.cons k v kvs) (depth + 1) ++ "\n" ++ indentStr depth ++ "\x7d"

def prettyElems : JsonList → Nat → String
  | .nil, _ => ""
  | .cons x .nil, depth => indentStr depth ++ prettyVal x depth
  | .cons x (.cons y ys), depth =>
    indentStr depth ++ prettyVal x depth ++ ",\n" ++ prettyElems (.cons y ys) depth

def prettyFields : JsonFields → Nat → String
  | .nil, _ => ""
  | .cons k v .nil, depth => indentStr depth ++ jsonQuote k ++ ": " ++ prettyVal v depth
  | .cons k v (.cons k2 v2 kvs), depth =>
    indentStr depth ++ jsonQuote k ++ ": " ++ prettyVal v depth ++ ",\n" ++
      prettyFields (.cons k2 v2 kvs) depth

end

def prettyJson (j : Json) : String :=
  prettyVal j 0

def jsonFieldsFind : JsonFields → String → Option Json
  | .nil, _ => none
  | .cons k1 v rest, k => if k1 = k then some v else jsonFieldsFind rest k

/-- Model of the gjson path lookup for plain dotted key paths (wildcards,
modifiers and array indexing are not modelled; the claims only use plain
keys). -/
def jsonGet : Json → List String → Option Json
  | j, [] => some j
  | .obj fields, k :: rest =>
    match jsonFieldsFind fields k with
    | some v => jsonGet v rest
    | none => none
  | _, _ :: _ => none

/-- Model of `gjson.Result.String()` on scalar results. -/
def jsonResultString : Json → String
  | .null => ""
  | .bool true => "true"
  | .bool false => "false"
  | .num n => toString n
  | .str s => s
  | .arr xs => prettyJson (.arr xs)
  | .obj kvs => prettyJson (.obj kvs)

def jsonIsDocument : Json → Bool
  | .arr _ => true
  | .obj _ => true
  | _ => false

/-- Model of `jsonFormatter.Search` of `formatter/json.go`: a non-empty query
is resolved against the parsed body (a missing node, or a null result, is the
inline gjson error); a scalar result is returned in textual form; a
sub-document, or the whole body on an empty query, is pretty-printed. -/
def jsonSearch (q : String) (body : String) : Except String (List String) :=
  if q ≠ "" then
    match parseJson body with
    | none => .error "Invalid gjson query or no results found"
    | some j =>
      match jsonGet j (splitOnChar '.' q) with
      | none => .error "Invalid gjson query or no results found"
      | some .null => .error "Invalid gjson query or no results found"
      | some r =>
        if jsonIsDocument r then .ok [prettyJson r]
        else .ok [jsonResultString r]
  else
    match parseJson body with
    | some j => .ok [prettyJson j]
    | none => .error "Invalid results"

/-! ### The other formatters (`formatter/binary.go`, `formatter/text.go`) -/

def dumpHexByte (c : Char) : List Char :=
  [upperHexDigit (c.toNat / 16 % 16), upperHexDigit (c.toNat % 16)]

def dumpAsciiChar (c : Char) : Char :=
  if 0x20 ≤ c.val && c.val ≤ 0x7e then c else '.'

def natHex8 (n : Nat) : List Char :=
  (List.range 8).map (fun i => upperHexDigit (n / 16 ^ (7 - i) % 16))

/-- One 16-byte line of Go `hex.Dump` output: offset, hex columns (an extra
space after the eighth byte, padding for a short final line), ASCII gutter. -/
def hexDumpLine (off : Nat) (bytes : List Char) : String :=
  String.mk ((natHex8 off).map Char.toLower) ++ "  " ++
    String.mk ((List.range 16).flatMap (fun i =>
      (match bytes.get? i with
       | some c => dumpHexByte c |>.map Char.toLower
       | none => [' ', ' ']) ++
      (if i = 7 then [' ', ' '] else [' ']))) ++
    " |" ++ String.mk (bytes.map dumpAsciiChar) ++ "|\n"

def hexDumpChunks : Nat → Nat → List Char → String
  | 0, _, _ => ""
  | _ + 1, _, [] => ""
  | fuel + 1, off, bytes =>
    hexDumpLine off (bytes.take 16) ++ hexDumpChunks fuel (off + 16) (bytes.drop 16)

/-- Model of Go `hex.Dump`, the binary formatter output. -/
def hexDump (s : String) : String :=
  hexDumpChunks (s.toList.length + 1) 0 s.toList

/-- Count of non-overlapping literal occurrences, left to right
(fuel-indexed). -/
def countOccAux (fuel : Nat) (pat : List Char) (l : List Char) : Nat :=
  match fuel, l with
  | 0, _ => 0
  | _, [] => 0
  | fuel + 1, x :: xs =>
    if listStartsWith pat (x :: xs) then
      1 + countOccAux fuel pat ((x :: xs).drop pat.length)
    else
      countOccAux fuel pat xs

/-- Model of `TextFormatter.Search` of `formatter/formatter.go` for literal
patterns: the regular-expression engine is modelled on patterns without
metacharacters, where every match is the pattern itself; matches are capped
at 1000.  (No claim exercises the text search; the JSON claims route through
`jsonSearch`.) -/
def textSearch (q : String) (body : String) : Except String (List String) :=
  .ok (List.replicate (min (countOccAux (body.toList.length + 1) q.toList body.toList) 1000) q)

def Searchable : FormatterKind → Bool
  | .binary => false
  | _ => true

def TitleFmt : FormatterKind → String
  | .json => "[json]"
  | .html => "[html]"
  | .binary => "[binary]"
  | .text => "[text]"

/-- Dispatch of the `Format` methods: text writes the bytes unchanged, JSON
pretty-prints (or fails with the inline message), the HTML colorizer is
modelled as the identity rendering, binary hex-dumps. -/
def FormatFmt (k : FormatterKind) (body : String) : Except String String :=
  match k with
  | .text => .ok body
  | .json =>
    match parseJson body with
    | some j => .ok (prettyJson j)
    | none => .error "json formatter error"
  | .html => .ok body
  | .binary => .ok (hexDump body)

/-- Dispatch of the `Search` methods: `binaryFormatter.Search` always fails;
`htmlFormatter` inherits the `TextFormatter` search. -/
def SearchFmt (k : FormatterKind) (q : String) (body : String) : Except String (List String) :=
  match k with
  | .binary => .error "Cannot perform search on binary content type"
  | .json => jsonSearch q body
  | .text => textSearch q body
  | .html => textSearch q body

/-! ### Views and the App state (`wuzz.go`) -/

def URL_VIEW : String := "url"
def URL_PARAMS_VIEW : String := "get"
def REQUEST_METHOD_VIEW : String := "method"
def REQUEST_DATA_VIEW : String := "data"
def REQUEST_HEADERS_VIEW : String := "headers"
def SEARCH_VIEW : String := "search"
def RESPONSE_HEADERS_VIEW : String := "response-headers"
def RESPONSE_BODY_VIEW : String := "response-body"
def HISTORY_VIEW : String := "history"

/-- The main-pane cycle of `wuzz.go` (`var VIEWS`). -/
def VIEWS : List String :=
  [URL_VIEW, URL_PARAMS_VIEW, REQUEST_METHOD_VIEW, REQUEST_DATA_VIEW,
   REQUEST_HEADERS_VIEW, SEARCH_VIEW, RESPONSE_HEADERS_VIEW, RESPONSE_BODY_VIEW]

/-- Model of `getViewValue` of `wuzz.go`: the view buffer with surrounding
whitespace trimmed, or the empty string when the view does not exist.  The
gocui view store is modelled as a partial map from view names to buffer
contents. -/
def getViewValue (views : String → Option String) (name : String) : String :=
  match views name with
  | some buf => trimSpace buf
  | none => ""

/-- Subset of the `Request` struct of `wuzz.go` observed by the claims
(`Duration` is wall-clock time and is not modelled). -/
structure Request where
  url : String
  method : String
  getParams : String
  data : String
  headers : String
  responseHeaders : String
  rawResponseBody : Option String
  contentType : String
  formatter : FormatterKind
deriving DecidableEq, Repr

/-- History-related fields of the `App` struct. -/
structure AppState where
  history : List Request
  historyIndex : Nat
deriving DecidableEq, Repr

/-- The two `config.GeneralOptions` flags the embedded code branches on. -/
structure GeneralOptions where
  formatJSON : Bool
  contextSpecificSearch : Bool
deriving DecidableEq, Repr

/-- Outcome of `CLIENT.Do` as far as `SubmitRequest` observes it: response
headers (canonical keys, as produced by the Go reader), status code, whether
`gzip.NewReader` succeeds when the response declares gzip encoding, and the
`ioutil.ReadAll` result (`none` models a body read error, leaving
`RawResponseBody` nil). -/
structure HttpResponse where
  headers : Headers
  statusCode : Nat
  gzipOk : Bool
  bodyRead : Option String
deriving DecidableEq, Repr

/-- A network exchange either fails (`CLIENT.Do` returns an error) or yields
a response. -/
inductive NetOutcome where
  | failure
  | success (resp : HttpResponse)
deriving DecidableEq, Repr

def respHeaderGet (hs : Headers) (k : String) : String :=
  match valuesFind hs k with
  | some (v :: _) => v
  | _ => ""

/-- Subset of Go `http.StatusText` (never inspected by a claim). -/
def statusText (code : Nat) : String :=
  if code = 200 then "OK"
  else if code = 404 then "Not Found"
  else if code = 500 then "Internal Server Error"
  else ""

def renderHeaderLine (kv : String × List String) : String :=
  "\x1b[0;33m" ++ kv.1 ++ ":\x1b[0;0m " ++ String.intercalate "," kv.2 ++ "\n"

/-- Rendering of the status line and sorted response headers
(`SubmitRequest`, `wuzz.go` lines 880-903). -/
def renderResponseHeaders (resp : HttpResponse) : String :=
  let color := if resp.statusCode ≠ 200 then 31 else 32
  "\x1b[0;" ++ toString color ++ "mHTTP/1.1 " ++ toString resp.statusCode ++ " " ++
    statusText resp.statusCode ++ "\x1b[0;0m\n" ++
  String.join ((sortLe strLe (resp.headers.map Prod.fst)).map
    (fun k => renderHeaderLine (k, valuesList resp.headers k)))

/-- Multipart encoding of one value list (the `postValues` loop of
`SubmitRequest`): a value starting with `@` names a file to upload, anything
else is a plain form field.  The multipart framing itself (Go uses a random
boundary) is abstracted into `key=value;` resp. `key=@contents;` parts; only
the failure behaviour of this loop is observable to the claims. -/
def multipartValues (files : String → Option String) (k : String) :
    List String → Except String String
  | [] => .ok ""
  | v :: vs =>
    match multipartValues files k vs with
    | .error e => .error e
    | .ok rest =>
      if v.toList.head? = some '@' then
        match files (String.mk (v.toList.drop 1)) with
        | some content => .ok (k ++ "=@" ++ content ++ ";" ++ rest)
        | none => .error ("Error: open " ++ String.mk (v.toList.drop 1))
      else
        .ok (k ++ "=" ++ v ++ ";" ++ rest)

def multipartParts (files : String → Option String) :
    List (String × List String) → Except String String
  | [] => .ok ""
  | (k, vs) :: rest =>
    match multipartValues files k vs with
    | .error e => .error e
    | .ok part =>
      match multipartParts files rest with
      | .error e => .error e
      | .ok parts => .ok (part ++ parts)

/-- Body construction of `SubmitRequest` (`wuzz.go` lines 762-813): only
POST/PUT/PATCH send a body; the form content type folds newlines to `&`;
the multipart content type re-parses the data pane as a query string (a
parse failure is the bare `return err`, which writes nothing to the cleared
response pane — hence the empty message). -/
def buildBody (files : String → Option String) (views : String → Option String)
    (method : String) (headers : Headers) : Except String String :=
  if method = "POST" ∨ method = "PUT" ∨ method = "PATCH" then
    let bodyStr := getViewValue views REQUEST_DATA_VIEW
    if headersGet headers "Content-Type" ≠ "multipart/form-data" then
      if headersGet headers "Content-Type" = "application/x-www-form-urlencoded" then
        .ok (replaceChar '\n' '&' bodyStr)
      else
        .ok bodyStr
    else
      match ParseQuery (replaceChar '\n' '&' (getViewValue views REQUEST_DATA_VIEW)) with
      | none => .error ""
      | some postData => multipartParts files postData
  else
    .ok ""

/-- Merging of the parsed query-params pane into the existing URL query
(`wuzz.go` lines 733-736): for every key of `q`, `Add` the concatenation of
its values.  Iterating the Go map visits each key once in unspecified order;
since distinct keys touch distinct entries and `Encode` sorts, the
first-appearance order used here is observationally equal. -/
def mergeQueryParams (originalQuery : Values) (q : Values) : Values :=
  q.foldl (fun acc kv => valuesAdd acc kv.1 (String.join kv.2)) originalQuery

/-- Rendering of the claim wording for C7 — "every parsed pair is added":
each individual `key=value` pair of the parsed params is `Add`-ed to the
existing query.  This definition follows the claim text, not the source, and
exists only to compare the two (the source joins the values of a key before
the single `Add`). -/
def mergeQueryParamsPairwise (originalQuery : Values) (q : Values) : Values :=
  q.foldl (fun acc kv => kv.2.foldl (fun acc2 v => valuesAdd acc2 kv.1 v) acc) originalQuery

/-- Go `http.NewRequest` method validation (`validMethod`): an empty method
defaults to GET, and a method with a non-token character is an error. -/
def methodAcceptable (m : String) : Bool :=
  m = "" || m.toList.all isHeaderTokenChar

/-- Assembly-and-exchange pipeline of the `SubmitRequest` goroutine
(`wuzz.go` lines 710-907), as a pure function of the view store, the
filesystem, and the network outcome.  `.error msg` models the early
`return`s that leave the App untouched and write `msg` into the cleared
response-body pane; `.ok r` models reaching the history append with the
fully built `Request`.  The Go error messages carry an error detail suffix
(`"URL parse error: %v"` etc.) that is abbreviated to its prefix here,
except for the header message, which the claims inspect. -/
def submitOutcome (cfg : GeneralOptions) (files : String → Option String)
    (views : String → Option String) (net : NetOutcome) : Except String Request :=
  let rUrl := getViewValue views URL_VIEW
  match urlParse rUrl with
  | none => .error "URL parse error"
  | some u =>
    match ParseQuery (replaceChar '\n' '&' (getViewValue views URL_PARAMS_VIEW)) with
    | none => .error "Invalid GET parameters"
    | some q =>
      let rawQuery := valuesEncode (mergeQueryParams (urlQueryValues u.rawQuery) q)
      let rMethod := getViewValue views REQUEST_METHOD_VIEW
      let rHeaders := getViewValue views REQUEST_HEADERS_VIEW
      match parseHeaderLines (splitOnChar '\n' rHeaders) (headersSet [] "User-Agent" "") with
      | .error e => .error e
      | .ok headers =>
        match buildBody files views rMethod headers with
        | .error e => .error e
        | .ok _body =>
          if !methodAcceptable rMethod then .error "Request error"
          else
            match net with
            | .failure => .error "Response error"
            | .success resp =>
              let contentType := respHeaderGet resp.headers "Content-Type"
              if respHeaderGet resp.headers "Content-Encoding" = "gzip" ∧ resp.gzipOk = false then
                .error "Cannot uncompress response"
              else
                .ok
                  { url := rUrl
                    method := rMethod
                    getParams := rawQuery
                    -- `SubmitRequest` never assigns `r.Data`; the field keeps
                    -- its zero value.
                    data := ""
                    headers := rHeaders
                    responseHeaders := renderResponseHeaders resp
                    rawResponseBody := resp.bodyRead
                    contentType := contentType
                    formatter := formatter.New cfg.formatJSON contentType }

/-- Model of `PrintBody` of `wuzz.go`: the new content of the response-body
pane, given its current content (returned unchanged when there is no history
entry to show or its raw body is nil). -/
def PrintBody (cfg : GeneralOptions) (app : AppState) (searchText pane : String) : String :=
  if app.history.length = 0 then pane
  else
    match app.history[app.historyIndex]? with
    | none => pane
    | some req =>
      match req.rawResponseBody with
      | none => pane
      | some body =>
        if searchText = "" ∨ Searchable req.formatter = false then
          match FormatFmt req.formatter body with
          | .ok out => out
          | .error e => "Error: cannot decode response body: " ++ e
        else
          let fmtr := if cfg.contextSpecificSearch then req.formatter else FormatterKind.text
          match SearchFmt fmtr searchText body with
          | .error e => "Search error: " ++ e
          | .ok [] => "Error: no results"
          | .ok (r :: rs) =>
            String.join ((r :: rs).map (fun res => "-----\n" ++ res ++ "\n"))

/-- Result of one submission step: the App history state and the contents
written to the response panes (both cleared synchronously when the
submission starts). -/
structure StepResult where
  app : AppState
  responseBodyPane : String
  responseHeadersPane : String
deriving DecidableEq, Repr

/-- Model of `SubmitRequest` (`wuzz.go` lines 701-910) as one whole step: on
an early return the history is untouched and the pane shows the inline
message; on success the request is appended, the cursor moves to the new
last index, and the panes are rendered. -/
def SubmitRequest (cfg : GeneralOptions) (files : String → Option String)
    (views : String → Option String) (net : NetOutcome) (app : AppState) : StepResult :=
  match submitOutcome cfg files views net with
  | .error msg => ⟨app, msg, ""⟩
  | .ok r =>
    let history := app.history ++ [r]
    let app2 : AppState := ⟨history, history.length - 1⟩
    ⟨app2, PrintBody cfg app2 (getViewValue views SEARCH_VIEW) "", r.responseHeaders⟩

/-- The five editable panes plus the two response panes, as restored by
`restoreRequest`. -/
structure PaneTexts where
  url : String
  method : String
  getParams : String
  data : String
  headers : String
  responseHeaders : String
  responseBody : String
deriving DecidableEq, Repr

/-- Model of `restoreRequest` of `wuzz.go` (lines 1342-1370): an out-of-range
index is a no-op; otherwise the cursor moves and the stored `Request` text
fields are written back into the panes, and `PrintBody` re-renders the body
pane. -/
def restoreRequest (cfg : GeneralOptions) (app : AppState) (panes : PaneTexts)
    (searchText : String) (idx : ℤ) : AppState × PaneTexts :=
  if idx < 0 ∨ (app.history.length : ℤ) ≤ idx then (app, panes)
  else
    match app.history[idx.toNat]? with
    | none => (app, panes)
    | some r =>
      let app2 : AppState := { app with historyIndex := idx.toNat }
      (app2,
        { url := r.url
          method := r.method
          getParams := r.getParams
          data := r.data
          headers := r.headers
          responseHeaders := r.responseHeaders
          responseBody := PrintBody cfg app2 searchText panes.responseBody })

/-! ### The popup slot (`wuzz.go`, `CreatePopupView` / `closePopup`) -/

/-- Popup-related state: the main-pane focus index (`App.viewIndex`), the
tracked popup (`App.currentPopup`), the popup-layer views existing in the
gocui store, the focused view, and cursor visibility. -/
structure PopupState where
  viewIndex : Nat
  currentPopup : String
  openPopups : List String
  currentView : String
  cursor : Bool
deriving DecidableEq, Repr

def listHasStr : List String → String → Bool
  | [], _ => false
  | x :: xs, y => x = y || listHasStr xs y

def listEraseStr : List String → String → List String
  | [], _ => []
  | x :: xs, y => if x = y then xs else x :: listEraseStr xs y

/-- Model of `closePopup` of `wuzz.go` (lines 1137-1145): when the named view
exists (`g.View` succeeds), clear the tracked popup, delete the view, focus
the main pane selected by `viewIndex` and re-enable the cursor. -/
def closePopup (s : PopupState) (viewname : String) : PopupState :=
  if listHasStr s.openPopups viewname then
    { s with
      currentPopup := ""
      openPopups := listEraseStr s.openPopups viewname
      currentView := VIEWS.getD (s.viewIndex % VIEWS.length) ""
      cursor := true }
  else s

/-- Model of `CreatePopupView` of `wuzz.go` (lines 1148-1172): close any
tracked popup first, hide the cursor, create the view (`g.SetView` reuses an
existing view of that name), track it. -/
def CreatePopupView (s : PopupState) (name : String) : PopupState :=
  let s1 := closePopup s s.currentPopup
  { s1 with
    cursor := false
    openPopups := if listHasStr s1.openPopups name then s1.openPopups else s1.openPopups ++ [name]
    currentPopup := name }

/-- A popup opening as every caller performs it: `CreatePopupView` followed
by `g.SetCurrentView(name)`. -/
def openPopup (s : PopupState) (name : String) : PopupState :=
  { CreatePopupView s name with currentView := name }

/-- A run of submissions: each step supplies the view store it was typed
into and the network outcome of its exchange. -/
def submitMany (cfg : GeneralOptions) (files : String → Option String)
    (steps : List ((String → Option String) × NetOutcome)) (app : AppState) : AppState :=
  steps.foldl (fun a step => (SubmitRequest cfg files step.1 step.2 a).app) app

/-! ### Concrete fixtures used by witnesses and counterexamples -/

/-- A concrete view store: the five editable panes plus the search pane. -/
def exViews : String → Option String := fun n =>
  if n = "url" then some "http://localhost/x"
  else if n = "get" then some "b=2\na=1"
  else if n = "method" then some "GET"
  else if n = "data" then some "payload"
  else if n = "headers" then some ""
  else if n = "search" then some ""
  else none

/-- A view store whose headers pane holds a line that does not split as
`Name: Value`. -/
def badHeaderViews : String → Option String := fun n =>
  if n = "url" then some "http://localhost/x"
  else if n = "get" then some ""
  else if n = "method" then some "GET"
  else if n = "data" then some ""
  else if n = "headers" then some "FooBar"
  else if n = "search" then some ""
  else none

/-- A plain successful text response. -/
def exResp : HttpResponse :=
  { headers := [("Content-Type", ["text/plain"])], statusCode := 200,
    gzipOk := true, bodyRead := some "hello" }

/-- A successful exchange whose body read failed (`ioutil.ReadAll` error). -/
def exRespNoBody : HttpResponse :=
  { headers := [("Content-Type", ["text/plain"])], statusCode := 200,
    gzipOk := true, bodyRead := none }

/-- The default configuration: `FormatJSON` is true; the search toggle set
for context-specific search. -/
def exCfg : GeneralOptions := ⟨true, true⟩

def noFiles : String → Option String := fun _ => none

/-- The `Request` that `submitOutcome` assembles from `exViews` and
`exResp`. -/
def exRequest : Request :=
  { url := "http://localhost/x"
    method := "GET"
    getParams := "a=1&b=2"
    data := ""
    headers := ""
    responseHeaders := renderResponseHeaders exResp
    rawResponseBody := some "hello"
    contentType := "text/plain"
    formatter := .text }

/-- The request appended when the body read fails: `RawResponseBody` nil. -/
def exRequestNB : Request :=
  { exRequest with
    rawResponseBody := none
    responseHeaders := renderResponseHeaders exRespNoBody }

/-- The body `\x7b"a":\x7b"b":1\x7d\x7d` of the JSON search claim. -/
def exBody : String := "\x7b\"a\":\x7b\"b\":1\x7d\x7d"

def exJson : Json := .obj (.cons "a" (.obj (.cons "b" (.num 1) .nil)) .nil)

/-- A history entry carrying `exBody` with the JSON formatter. -/
def exJsonRequest : Request :=
  { url := "http://localhost/j"
    method := "GET"
    getParams := ""
    data := ""
    headers := ""
    responseHeaders := ""
    rawResponseBody := some exBody
    contentType := "application/json"
    formatter := .json }

/-! ### Helper lemmas -/

theorem toList_mk (l : List Char) : (String.mk l).toList = l := rfl

theorem trimRight_cons (p : Char → Bool) (a : Char) (l : List Char) :
    trimRight p (a :: l) =
      match trimRight p l with
      | [] => if p a then [] else [a]
      | b :: l2 => a :: b :: l2 := rfl

theorem trimRight_trimRight (p : Char → Bool) (l : List Char) :
    trimRight p (trimRight p l) = trimRight p l := by
  induction l with
  | nil => rfl
  | cons a l ih =>
    cases h : trimRight p l with
    | nil =>
      rw [trimRight_cons, h]
      show trimRight p (if p a = true then [] else [a]) = if p a = true then [] else [a]
      by_cases hp : p a = true
      · rw [if_pos hp]
        rfl
      · rw [if_neg hp]
        show (if p a = true then [] else [a]) = [a]
        rw [if_neg hp]
    | cons b l2 =>
      rw [h] at ih
      rw [trimRight_cons, h, trimRight_cons, ih]

theorem dropWhile_trimRight_fix (p : Char → Bool) (l : List Char)
    (h : l.dropWhile p = l) : (trimRight p l).dropWhile p = trimRight p l := by
  cases l with
  | nil => rfl
  | cons a l =>
    have hp : p a = false := by
      cases hval : p a
      · rfl
      · exfalso
        rw [List.dropWhile_cons, if_pos hval] at h
        have hlen := (List.dropWhile_sublist (p := p) (l := l)).length_le
        rw [h] at hlen
        simp at hlen
    cases h2 : trimRight p l with
    | nil =>
      rw [trimRight_cons, h2]
      simp [hp, List.dropWhile_cons]
    | cons b l2 =>
      rw [trimRight_cons, h2]
      simp [hp, List.dropWhile_cons]

theorem trimSpace_idem (s : String) : trimSpace (trimSpace s) = trimSpace s := by
  unfold trimSpace
  rw [toList_mk]
  rw [dropWhile_trimRight_fix isSpaceChar _ (List.dropWhile_idempotent _ _), trimRight_trimRight]

theorem invalid_header_msg_ne_empty (line : String) : "Invalid header: " ++ line ≠ "" := by
  intro h
  have h2 := congrArg String.data h
  simp [String.data_append] at h2

/-! ### Claim C8 -/

/-- Claim C8, as stated, is false: the code truncates the product toward
zero (the Go `int` conversion), while standard rounding of `0.5 * 101 = 50.5`
gives `51`; at fraction `0.5`, absolute offset `-1` and dimension `101`, the
code yields `49`, not `round(50.5) + (-1) = 50`. -/
theorem C8_counterexample :
    Position.getCoordinate ⟨1/2, -1⟩ 101 ≠ roundHalfUp ((1/2 : ℚ) * 101) + (-1) := by
  unfold Position.getCoordinate truncToZero roundHalfUp
  rw [if_pos (by norm_num)]
  norm_num

/-- Claim C8 (amended): each pane coordinate resolves as
`value = trunc(fraction × dimension) + absolute_offset`, truncation toward
zero — equal to the floor for the nonnegative products that arise; in
particular fraction `0.5`, absolute `-1`, dimension `101` resolves to
`trunc(50.5) - 1 = 49`. -/
theorem C8_theorem :
    (∀ (p : Position) (max : ℤ), 0 ≤ p.pct * (max : ℚ) →
      p.getCoordinate max = ⌊p.pct * (max : ℚ)⌋ + p.abs) ∧
    Position.getCoordinate ⟨1/2, -1⟩ 101 = 49 := by
  constructor
  · intro p max h
    unfold Position.getCoordinate truncToZero
    rw [if_pos h]
  · unfold Position.getCoordinate truncToZero
    rw [if_pos (by norm_num)]
    norm_num

/-- Witness for C8: the amended formula applied at the concrete pane
coordinate of the claim. -/
theorem C8_witness :
    Position.getCoordinate ⟨1/2, -1⟩ 101 = ⌊(1/2 : ℚ) * ((101 : ℤ) : ℚ)⌋ + (-1) :=
  C8_theorem.1 ⟨1/2, -1⟩ 101 (by norm_num)

/-! ### Claim C2 -/

/-- Claim C2: with `FormatJSON` enabled (its `config.DefaultConfig` value),
formatter dispatch is a total function into the four formatter variants; a
successfully parsed media type equal to `application/json` or ending in
`+json` gets the JSON formatter; otherwise a content type containing
`text/html` gets the HTML formatter; otherwise one containing neither
`text` nor `application` gets the binary formatter; otherwise the text
formatter; and the four concrete examples dispatch accordingly. -/
theorem C2_theorem :
    (∀ ct, formatter.New true ct = .json ∨ formatter.New true ct = .html ∨
      formatter.New true ct = .binary ∨ formatter.New true ct = .text) ∧
    (∀ ct t, parseMediaType ct = some t →
      (t = contentTypeJSON ∨ strHasSuffix t "+json" = true) →
      formatter.New true ct = .json) ∧
    (∀ ct, formatter.New true ct ≠ .json → strContains ct "text/html" = true →
      formatter.New true ct = .html) ∧
    (∀ ct, formatter.New true ct ≠ .json → strContains ct "text/html" = false →
      strContains ct "text" = false → strContains ct "application" = false →
      formatter.New true ct = .binary) ∧
    (∀ ct, formatter.New true ct ≠ .json → strContains ct "text/html" = false →
      (strContains ct "text" = true ∨ strContains ct "application" = true) →
      formatter.New true ct = .text) ∧
    formatter.New true "application/json; charset=utf-8" = .json ∧
    formatter.New true "text/html; charset=utf-8" = .html ∧
    formatter.New true "octet-stream" = .binary ∧
    formatter.New true "text/plain" = .text := by
  refine ⟨?_, ?_, ?_, ?_, ?_, by decide, by decide, by decide, by decide⟩
  · intro ct
    cases h : formatter.New true ct <;> simp
  · intro ct t h1 h2
    have hc : jsonDispatchCond true ct = true := by
      unfold jsonDispatchCond
      rw [h1]
      rcases h2 with h2 | h2 <;> simp [h2]
    simp [formatter.New, hc]
  · intro ct h1 h2
    have hc : jsonDispatchCond true ct = false := by
      cases hcc : jsonDispatchCond true ct
      · rfl
      · exact absurd (by simp [formatter.New, hcc]) h1
    simp [formatter.New, hc, h2]
  · intro ct h1 h2 h3 h4
    have hc : jsonDispatchCond true ct = false := by
      cases hcc : jsonDispatchCond true ct
      · rfl
      · exact absurd (by simp [formatter.New, hcc]) h1
    simp [formatter.New, hc, h2, h3, h4]
  · intro ct h1 h2 h3
    have hc : jsonDispatchCond true ct = false := by
      cases hcc : jsonDispatchCond true ct
      · rfl
      · exact absurd (by simp [formatter.New, hcc]) h1
    rcases h3 with h3 | h3 <;> simp [formatter.New, hc, h2, h3]

/-- Witness for C2: the JSON dispatch rule applied at the concrete media
type of the claim. -/
theorem C2_witness :
    formatter.New true "application/json; charset=utf-8" = FormatterKind.json :=
  C2_theorem.2.1 "application/json; charset=utf-8" "application/json"
    (by decide) (Or.inl rfl)

/-! ### Claim C6 -/

/-- Claim C6: starting from a state with at most one popup open and the
focus on the main pane selected by `viewIndex`, opening popup `a` leaves
exactly `[a]` open; opening popup `b` on top leaves exactly `[b]` open; and
closing `b` restores the focus to the very main pane that was focused before
the popups were opened (tracked through `viewIndex`, which the popup
operations never change) and re-enables the cursor. -/
theorem C6_theorem (s : PopupState) (a b : String)
    (hinv : s.openPopups = [] ∨ s.openPopups = [s.currentPopup])
    (hidx : s.viewIndex < VIEWS.length)
    (hcur : s.currentView = VIEWS.getD s.viewIndex "") :
    (openPopup s a).openPopups = [a] ∧
    (openPopup (openPopup s a) b).openPopups = [b] ∧
    (closePopup (openPopup (openPopup s a) b) b).currentView = s.currentView ∧
    (closePopup (openPopup (openPopup s a) b) b).cursor = true ∧
    (closePopup (openPopup (openPopup s a) b) b).viewIndex = s.viewIndex := by
  have e1 : openPopup s a = ⟨s.viewIndex, a, [a], a, false⟩ := by
    rcases hinv with h | h
    · simp [openPopup, CreatePopupView, closePopup, h, listHasStr]
    · simp [openPopup, CreatePopupView, closePopup, h, listHasStr, listEraseStr]
  have e2 : openPopup (⟨s.viewIndex, a, [a], a, false⟩ : PopupState) b
      = ⟨s.viewIndex, b, [b], b, false⟩ := by
    simp [openPopup, CreatePopupView, closePopup, listHasStr, listEraseStr]
  have e3 : closePopup (⟨s.viewIndex, b, [b], b, false⟩ : PopupState) b
      = ⟨s.viewIndex, "", [], VIEWS.getD (s.viewIndex % VIEWS.length) "", true⟩ := by
    simp [closePopup, listHasStr, listEraseStr]
  rw [e1, e2, e3]
  refine ⟨rfl, rfl, ?_, rfl, rfl⟩
  rw [Nat.mod_eq_of_lt hidx, hcur]

/-- Witness for C6: the popup exclusivity and focus restoration applied at a
concrete state, opening the history popup and then the method list. -/
theorem C6_witness :
    (openPopup ⟨0, "", [], "url", true⟩ "history").openPopups = ["history"] ∧
    (openPopup (openPopup ⟨0, "", [], "url", true⟩ "history") "method-list").openPopups
      = ["method-list"] ∧
    (closePopup (openPopup (openPopup ⟨0, "", [], "url", true⟩ "history") "method-list")
      "method-list").currentView = "url" ∧
    (closePopup (openPopup (openPopup ⟨0, "", [], "url", true⟩ "history") "method-list")
      "method-list").cursor = true ∧
    (closePopup (openPopup (openPopup ⟨0, "", [], "url", true⟩ "history") "method-list")
      "method-list").viewIndex = 0 :=
  C6_theorem ⟨0, "", [], "url", true⟩ "history" "method-list"
    (Or.inl rfl) (by decide) rfl

/-! ### The assembled request: shared facts about `submitOutcome` -/

theorem submitOutcome_ok_spec {cfg : GeneralOptions} {files views : String → Option String}
    {net : NetOutcome} {r : Request}
    (h : submitOutcome cfg files views net = .ok r) :
    r.url = getViewValue views URL_VIEW ∧
    r.method = getViewValue views REQUEST_METHOD_VIEW ∧
    r.headers = getViewValue views REQUEST_HEADERS_VIEW ∧
    r.data = "" ∧
    (∃ u q, urlParse (getViewValue views URL_VIEW) = some u ∧
      ParseQuery (replaceChar '\n' '&' (getViewValue views URL_PARAMS_VIEW)) = some q ∧
      r.getParams = valuesEncode (mergeQueryParams (urlQueryValues u.rawQuery) q)) ∧
    (∃ resp, net = .success resp ∧ r.rawResponseBody = resp.bodyRead ∧
      r.responseHeaders = renderResponseHeaders resp) := by
  cases hu : urlParse (getViewValue views URL_VIEW) with
  | none => simp [submitOutcome, hu] at h
  | some u =>
    cases hq : ParseQuery (replaceChar '\n' '&' (getViewValue views URL_PARAMS_VIEW)) with
    | none => simp [submitOutcome, hu, hq] at h
    | some q =>
      cases hh : parseHeaderLines (splitOnChar '\n' (getViewValue views REQUEST_HEADERS_VIEW))
          (headersSet [] "User-Agent" "") with
      | error e => simp [submitOutcome, hu, hq, hh] at h
      | ok hdrs =>
        cases hb : buildBody files views (getViewValue views REQUEST_METHOD_VIEW) hdrs with
        | error e => simp [submitOutcome, hu, hq, hh, hb] at h
        | ok body =>
          by_cases hm : methodAcceptable (getViewValue views REQUEST_METHOD_VIEW) = true
          · cases net with
            | failure => simp [submitOutcome, hu, hq, hh, hb, hm] at h
            | success resp =>
              by_cases hg : respHeaderGet resp.headers "Content-Encoding" = "gzip" ∧
                  resp.gzipOk = false
              · simp [submitOutcome, hu, hq, hh, hb, hm, hg] at h
              · simp [submitOutcome, hu, hq, hh, hb, hm, hg] at h
                subst h
                exact ⟨rfl, rfl, rfl, rfl, ⟨u, q, rfl, rfl, rfl⟩, ⟨resp, rfl, rfl, rfl⟩⟩
          · simp [submitOutcome, hu, hq, hh, hb, hm] at h

theorem submit_ok_app {cfg : GeneralOptions} {files views : String → Option String}
    {net : NetOutcome} {r : Request} (app : AppState)
    (h : submitOutcome cfg files views net = .ok r) :
    (SubmitRequest cfg files views net app).app
      = ⟨app.history ++ [r], app.history.length⟩ := by
  simp [SubmitRequest, h]

/-! ### Claim C9 -/

theorem getViewValue_trim_fix (views : String → Option String) (name : String) :
    trimSpace (getViewValue views name) = getViewValue views name := by
  unfold getViewValue
  cases views name with
  | none => rfl
  | some buf => exact trimSpace_idem buf

/-- Claim C9: `getViewValue` returns the buffer with leading and trailing
whitespace stripped (and the empty string for a missing view); consequently
every value it produces is a fixed point of trimming, and the URL, method
and headers of any successfully assembled request — which are `getViewValue`
reads — never carry surrounding whitespace. -/
theorem C9_theorem :
    (∀ (views : String → Option String) (name buf : String), views name = some buf →
      getViewValue views name = trimSpace buf) ∧
    (∀ (views : String → Option String) (name : String), views name = none →
      getViewValue views name = "") ∧
    (∀ (views : String → Option String) (name : String),
      trimSpace (getViewValue views name) = getViewValue views name) ∧
    (∀ (cfg : GeneralOptions) (files views : String → Option String) (net : NetOutcome)
      (r : Request), submitOutcome cfg files views net = .ok r →
      r.url = getViewValue views URL_VIEW ∧
      r.method = getViewValue views REQUEST_METHOD_VIEW ∧
      r.headers = getViewValue views REQUEST_HEADERS_VIEW ∧
      trimSpace r.url = r.url ∧ trimSpace r.method = r.method ∧
      trimSpace r.headers = r.headers) := by
  refine ⟨?_, ?_, getViewValue_trim_fix, ?_⟩
  · intro views name buf h
    unfold getViewValue
    rw [h]
  · intro views name h
    unfold getViewValue
    rw [h]
  · intro cfg files views net r h
    obtain ⟨h1, h2, h3, _, _, _⟩ := submitOutcome_ok_spec h
    refine ⟨h1, h2, h3, ?_, ?_, ?_⟩ <;>
      simp [h1, h2, h3, getViewValue_trim_fix]

/-- Witness for C9: the trimming facts applied to the concrete view store
and its assembled request. -/
theorem C9_witness :
    getViewValue exViews "url" = trimSpace "http://localhost/x" ∧
    exRequest.url = getViewValue exViews URL_VIEW ∧
    trimSpace exRequest.url = exRequest.url :=
  ⟨C9_theorem.1 exViews "url" "http://localhost/x" rfl,
   (C9_theorem.2.2.2 exCfg noFiles exViews (.success exResp) exRequest (by decide)).1,
   (C9_theorem.2.2.2 exCfg noFiles exViews (.success exResp) exRequest (by decide)).2.2.2.1⟩

/-! ### Claim C5 -/

theorem parseHeaderLines_error_of_bad (lines : List String) (hs : Headers)
    (h : ∃ l ∈ lines, l ≠ "" ∧ (splitN2 l ": ").length ≠ 2) :
    ∃ e, parseHeaderLines lines hs = .error e ∧ e ≠ "" := by
  induction lines generalizing hs with
  | nil =>
    obtain ⟨l, hl, _⟩ := h
    exact absurd hl (List.not_mem_nil l)
  | cons line rest ih =>
    obtain ⟨l, hl, hne, hsplit⟩ := h
    by_cases hline : line = ""
    · subst hline
      have hmem : l ∈ rest := by
        rcases List.mem_cons.mp hl with rfl | hm
        · exact absurd rfl hne
        · exact hm
      obtain ⟨e, he, hene⟩ := ih hs ⟨l, hmem, hne, hsplit⟩
      exact ⟨e, by simp [parseHeaderLines, he], hene⟩
    · cases hsp : splitN2 line ": " with
      | nil =>
        exact ⟨"Invalid header: " ++ line, by simp [parseHeaderLines, hline, hsp],
          invalid_header_msg_ne_empty line⟩
      | cons x xs =>
        cases xs with
        | nil =>
          exact ⟨"Invalid header: " ++ line, by simp [parseHeaderLines, hline, hsp],
            invalid_header_msg_ne_empty line⟩
        | cons y ys =>
          cases ys with
          | nil =>
            have hmem : l ∈ rest := by
              rcases List.mem_cons.mp hl with rfl | hm
              · rw [hsp] at hsplit
                simp at hsplit
              · exact hm
            obtain ⟨e, he, hene⟩ := ih (headersSet hs x y) ⟨l, hmem, hne, hsplit⟩
            exact ⟨e, by simp [parseHeaderLines, hline, hsp, he], hene⟩
          | cons z zs =>
            exact ⟨"Invalid header: " ++ line, by simp [parseHeaderLines, hline, hsp],
              invalid_header_msg_ne_empty line⟩

/-- Claim C5: when some non-empty line of the headers pane does not split as
`Name: Value`, the whole submission aborts with a non-empty inline error in
the response-body pane, the history is untouched, and the outcome does not
depend on the network or the filesystem — no I/O can have mattered. -/
theorem C5_theorem (cfg : GeneralOptions) (views : String → Option String)
    (h : ∃ l ∈ splitOnChar '\n' (getViewValue views REQUEST_HEADERS_VIEW),
      l ≠ "" ∧ (splitN2 l ": ").length ≠ 2) :
    ∃ msg, msg ≠ "" ∧ ∀ (files : String → Option String) (net : NetOutcome) (app : AppState),
      SubmitRequest cfg files views net app = ⟨app, msg, ""⟩ := by
  cases hu : urlParse (getViewValue views URL_VIEW) with
  | none =>
    exact ⟨"URL parse error", by decide, fun files net app => by
      simp [SubmitRequest, submitOutcome, hu]⟩
  | some u =>
    cases hq : ParseQuery (replaceChar '\n' '&' (getViewValue views URL_PARAMS_VIEW)) with
    | none =>
      exact ⟨"Invalid GET parameters", by decide, fun files net app => by
        simp [SubmitRequest, submitOutcome, hu, hq]⟩
    | some q =>
      obtain ⟨e, he, hene⟩ :=
        parseHeaderLines_error_of_bad _ (headersSet [] "User-Agent" "") h
      exact ⟨e, hene, fun files net app => by
        simp [SubmitRequest, submitOutcome, hu, hq, he]⟩

/-- Witness for C5: a header pane holding the line `FooBar` (no `": "`)
aborts the submission identically for every network and filesystem. -/
theorem C5_witness :
    ∃ msg, msg ≠ "" ∧ ∀ (files : String → Option String) (net : NetOutcome) (app : AppState),
      SubmitRequest exCfg files badHeaderViews net app = ⟨app, msg, ""⟩ :=
  C5_theorem exCfg badHeaderViews ⟨"FooBar", by decide, by decide, by decide⟩

/-! ### Claim C1 -/

/-- Claim C1, as stated, is false at a concrete well-formed input: with the
query-params pane holding `b=2`/`a=1` on two lines and the data pane holding
`payload`, a successful submission followed by restoring the entry it
appended leaves the query-params pane holding the URL-encoded merged query
`a=1&b=2` and the data pane empty — neither pane matches its pre-submission
content. -/
theorem C1_counterexample :
    exViews URL_PARAMS_VIEW = some "b=2\na=1" ∧
    exViews REQUEST_DATA_VIEW = some "payload" ∧
    (restoreRequest exCfg (SubmitRequest exCfg noFiles exViews (.success exResp) ⟨[], 0⟩).app
        ⟨"", "", "", "", "", "", ""⟩ "" 0).2.getParams = "a=1&b=2" ∧
    (restoreRequest exCfg (SubmitRequest exCfg noFiles exViews (.success exResp) ⟨[], 0⟩).app
        ⟨"", "", "", "", "", "", ""⟩ "" 0).2.data = "" ∧
    ("a=1&b=2" : String) ≠ "b=2\na=1" ∧ ("" : String) ≠ "payload" := by
  decide

/-- Claim C1 (amended): after a successful submission, restoring the entry
it appended leaves the URL, method and headers panes holding exactly the
trimmed values read from them at submission (hence textually identical
whenever the pre-submission contents carried no surrounding whitespace),
clears the request-data pane (`SubmitRequest` never captures `r.Data`), and
sets the query-params pane to the URL-encoded merged query string rather
than the original pane text. -/
theorem C1_theorem (cfg : GeneralOptions) (files views : String → Option String)
    (net : NetOutcome) (app : AppState) (panes : PaneTexts) (searchText : String)
    (r : Request) (h : submitOutcome cfg files views net = .ok r) :
    restoreRequest cfg (SubmitRequest cfg files views net app).app panes searchText
        (app.history.length : ℤ) =
      ((SubmitRequest cfg files views net app).app,
        { url := getViewValue views URL_VIEW
          method := getViewValue views REQUEST_METHOD_VIEW
          getParams := r.getParams
          data := ""
          headers := getViewValue views REQUEST_HEADERS_VIEW
          responseHeaders := r.responseHeaders
          responseBody := PrintBody cfg (SubmitRequest cfg files views net app).app searchText
            panes.responseBody }) := by
  obtain ⟨h1, h2, h3, h4, _, _⟩ := submitOutcome_ok_spec h
  have hst := submit_ok_app app h
  rw [hst]
  unfold restoreRequest
  rw [if_neg (by simp)]
  simp only [Int.toNat_natCast, List.getElem?_concat_length]
  rw [← h1, ← h2, ← h3, ← h4]

/-- Witness for C1: the amended restore behaviour at the concrete view
store, network outcome and empty starting history. -/
theorem C1_witness :
    restoreRequest exCfg (SubmitRequest exCfg noFiles exViews (.success exResp) ⟨[], 0⟩).app
        ⟨"", "", "", "", "", "", ""⟩ "" ((([] : List Request).length : ℤ)) =
      ((SubmitRequest exCfg noFiles exViews (.success exResp) ⟨[], 0⟩).app,
        { url := getViewValue exViews URL_VIEW
          method := getViewValue exViews REQUEST_METHOD_VIEW
          getParams := exRequest.getParams
          data := ""
          headers := getViewValue exViews REQUEST_HEADERS_VIEW
          responseHeaders := exRequest.responseHeaders
          responseBody := PrintBody exCfg
            (SubmitRequest exCfg noFiles exViews (.success exResp) ⟨[], 0⟩).app ""
            "" }) :=
  C1_theorem exCfg noFiles exViews (.success exResp) ⟨[], 0⟩
    ⟨"", "", "", "", "", "", ""⟩ "" exRequest (by decide)

/-! ### Claim C3 -/

theorem submitMany_app_spec (cfg : GeneralOptions) (files : String → Option String)
    (steps : List ((String → Option String) × NetOutcome)) :
    ∀ app : AppState,
      (∀ s ∈ steps, ∃ r, submitOutcome cfg files s.1 s.2 = .ok r) →
      (submitMany cfg files steps app).history.length = app.history.length + steps.length ∧
      (steps ≠ [] → (submitMany cfg files steps app).historyIndex
          = app.history.length + steps.length - 1) := by
  induction steps with
  | nil =>
    intro app _
    simp [submitMany]
  | cons s rest ih =>
    intro app h
    obtain ⟨r, hr⟩ := h s (List.mem_cons_self s rest)
    have hm : submitMany cfg files (s :: rest) app
        = submitMany cfg files rest ⟨app.history ++ [r], app.history.length⟩ := by
      show submitMany cfg files rest (SubmitRequest cfg files s.1 s.2 app).app
          = submitMany cfg files rest ⟨app.history ++ [r], app.history.length⟩
      rw [submit_ok_app app hr]
    have hrest := ih ⟨app.history ++ [r], app.history.length⟩
      (fun s2 hs2 => h s2 (List.mem_cons_of_mem s hs2))
    rw [hm]
    constructor
    · rw [hrest.1]
      simp
      omega
    · intro _
      cases rest with
      | nil =>
        show AppState.historyIndex ⟨app.history ++ [r], app.history.length⟩ = _
        simp
      | cons s2 rest2 =>
        rw [hrest.2 (by simp)]
        simp
        omega

/-- Claim C3: starting from an empty history, a run of N successful
submissions leaves `len(history) = N` and `historyIndex = N - 1` (each
successful submission appends exactly one request and moves the cursor to
the new last index), and `restoreRequest` never changes the history — it
only sets `historyIndex` when the index is in range. -/
theorem C3_theorem (cfg : GeneralOptions) (files : String → Option String)
    (steps : List ((String → Option String) × NetOutcome))
    (h : ∀ s ∈ steps, ∃ r, submitOutcome cfg files s.1 s.2 = .ok r) :
    (submitMany cfg files steps ⟨[], 0⟩).history.length = steps.length ∧
    (steps ≠ [] → (submitMany cfg files steps ⟨[], 0⟩).historyIndex = steps.length - 1) ∧
    (∀ (app : AppState) (panes : PaneTexts) (searchText : String) (idx : ℤ),
      (restoreRequest cfg app panes searchText idx).1.history = app.history) ∧
    (∀ (app : AppState) (panes : PaneTexts) (searchText : String) (idx : ℤ),
      0 ≤ idx → idx < (app.history.length : ℤ) →
      (restoreRequest cfg app panes searchText idx).1.historyIndex = idx.toNat) := by
  obtain ⟨hlen, hidx⟩ := submitMany_app_spec cfg files steps ⟨[], 0⟩ h
  refine ⟨by simpa using hlen, fun hne => by simpa using hidx hne, ?_, ?_⟩
  · intro app panes searchText idx
    unfold restoreRequest
    split
    · rfl
    · cases app.history[idx.toNat]? <;> simp
  · intro app panes searchText idx h0 hlt
    have htn : idx.toNat < app.history.length := by omega
    unfold restoreRequest
    rw [if_neg (by omega), List.getElem?_eq_getElem htn]

/-- Witness for C3: two concrete successful submissions from an empty
history. -/
theorem C3_witness :
    (submitMany exCfg noFiles [(exViews, .success exResp), (exViews, .success exResp)]
      ⟨[], 0⟩).history.length = 2 ∧
    (submitMany exCfg noFiles [(exViews, .success exResp), (exViews, .success exResp)]
      ⟨[], 0⟩).historyIndex = 1 := by
  have h := C3_theorem exCfg noFiles [(exViews, .success exResp), (exViews, .success exResp)]
    (by
      intro s hs
      rcases List.mem_cons.mp hs with rfl | hs2
      · exact ⟨exRequest, by decide⟩
      · rcases List.mem_cons.mp hs2 with rfl | hs3
        · exact ⟨exRequest, by decide⟩
        · exact absurd hs3 (List.not_mem_nil s))
  exact ⟨h.1, h.2.1 (List.cons_ne_nil _ _)⟩

/-! ### Claim C10 -/

/-- Claim C10: when the exchange succeeds but reading the body fails
(`ioutil.ReadAll` error, modelled as `bodyRead = none`), the request is
still appended with `RawResponseBody` nil and the cursor advanced, the
response-body pane stays empty (no error is reported), and in general
`PrintBody` leaves the pane untouched for any current history entry whose
raw body is nil. -/
theorem C10_theorem (cfg : GeneralOptions) (files views : String → Option String)
    (app : AppState) (resp : HttpResponse) (r : Request)
    (hbody : resp.bodyRead = none)
    (h : submitOutcome cfg files views (.success resp) = .ok r) :
    r.rawResponseBody = none ∧
    (SubmitRequest cfg files views (.success resp) app).app.history = app.history ++ [r] ∧
    (SubmitRequest cfg files views (.success resp) app).app.historyIndex
      = app.history.length ∧
    (SubmitRequest cfg files views (.success resp) app).responseBodyPane = "" ∧
    (∀ (app2 : AppState) (searchText pane : String) (req2 : Request),
      app2.history[app2.historyIndex]? = some req2 → req2.rawResponseBody = none →
      PrintBody cfg app2 searchText pane = pane) := by
  have hprint : ∀ (app2 : AppState) (searchText pane : String) (req2 : Request),
      app2.history[app2.historyIndex]? = some req2 → req2.rawResponseBody = none →
      PrintBody cfg app2 searchText pane = pane := by
    intro app2 searchText pane req2 hget hnil
    unfold PrintBody
    by_cases hlen : app2.history.length = 0
    · rw [if_pos hlen]
    · rw [if_neg hlen]
      simp [hget, hnil]
  have hraw : r.rawResponseBody = none := by
    obtain ⟨_, _, _, _, _, resp2, hnet, hrb, _⟩ := submitOutcome_ok_spec h
    cases hnet
    rw [hrb, hbody]
  have hst := submit_ok_app app h
  refine ⟨hraw, by rw [hst], by rw [hst], ?_, hprint⟩
  show (SubmitRequest cfg files views (.success resp) app).responseBodyPane = ""
  have hpane : (SubmitRequest cfg files views (.success resp) app).responseBodyPane
      = PrintBody cfg ⟨app.history ++ [r], app.history.length⟩
        (getViewValue views SEARCH_VIEW) "" := by
    simp [SubmitRequest, h]
  rw [hpane]
  exact hprint _ _ _ r (by simp) hraw

/-- Witness for C10: a concrete successful exchange whose body read failed. -/
theorem C10_witness :
    (SubmitRequest exCfg noFiles exViews (.success exRespNoBody) ⟨[], 0⟩).app.history
      = [] ++ [exRequestNB] ∧
    (SubmitRequest exCfg noFiles exViews (.success exRespNoBody) ⟨[], 0⟩).app.historyIndex
      = 0 ∧
    (SubmitRequest exCfg noFiles exViews (.success exRespNoBody) ⟨[], 0⟩).responseBodyPane
      = "" := by
  have h := C10_theorem exCfg noFiles exViews ⟨[], 0⟩ exRespNoBody exRequestNB
    rfl (by decide)
  refine ⟨by rw [h.2.1], ?_, h.2.2.2.1⟩
  rw [h.2.2.1]
  rfl

/-! ### Claim C4 -/

/-- Claim C4, as stated, is false on its error clause: a search for the
absent path `a.c` over the JSON body does yield an error, but `PrintBody`
has already cleared the response-body pane and writes `Search error: …` into
it — the previously displayed content is overwritten, not left intact. -/
theorem C4_counterexample :
    PrintBody ⟨true, true⟩ ⟨[exJsonRequest], 0⟩ "a.c" "previous content"
      = "Search error: Invalid gjson query or no results found" ∧
    PrintBody ⟨true, true⟩ ⟨[exJsonRequest], 0⟩ "a.c" "previous content"
      ≠ "previous content" := by
  decide

/-- Claim C4 (amended): for the JSON body `\x7b"a":\x7b"b":1\x7d\x7d`, the
query `a.b` yields the scalar text `1`; the empty query yields the full
pretty-printed body; the absent query `a.c` yields an error; and on that
error `PrintBody` replaces whatever the response-body pane held with
`Search error: …` (the stored history entry itself is a pure input and is
not modified). -/
theorem C4_theorem :
    jsonSearch "a.b" exBody = .ok ["1"] ∧
    parseJson exBody = some exJson ∧
    jsonSearch "" exBody = .ok [prettyJson exJson] ∧
    (∃ e, jsonSearch "a.c" exBody = .error e) ∧
    (∀ prev : String, PrintBody ⟨true, true⟩ ⟨[exJsonRequest], 0⟩ "a.c" prev
      = "Search error: Invalid gjson query or no results found") := by
  refine ⟨by decide, rfl, by decide,
    ⟨"Invalid gjson query or no results found", by decide⟩, ?_⟩
  intro prev
  rfl

/-! ### Claim C7 -/

theorem valuesFind_cons (k2 : String) (l2 : List String) (rest : Values) (k : String) :
    valuesFind ((k2, l2) :: rest) k = if k2 = k then some l2 else valuesFind rest k := rfl

theorem valuesFind_valuesAdd (vs : Values) (ka v k : String) :
    valuesFind (valuesAdd vs ka v) k
      = if k = ka then some (valuesList vs k ++ [v]) else valuesFind vs k := by
  induction vs with
  | nil =>
    show (if ka = k then some [v] else none) = _
    by_cases h : k = ka
    · subst h
      simp [valuesList, valuesFind]
    · rw [if_neg (fun hh => h hh.symm), if_neg h]
      rfl
  | cons kv rest ih =>
    obtain ⟨k2, l2⟩ := kv
    by_cases h2a : k2 = ka
    · subst h2a
      have he : valuesAdd ((k2, l2) :: rest) k2 v = (k2, l2 ++ [v]) :: rest := by
        simp [valuesAdd]
      rw [he, valuesFind_cons, valuesFind_cons]
      by_cases hk : k2 = k
      · rw [if_pos hk, if_pos (hk.symm)]
        subst hk
        simp [valuesList, valuesFind]
      · rw [if_neg hk, if_neg (fun hh => hk hh.symm), if_neg hk]
    · have he : valuesAdd ((k2, l2) :: rest) ka v = (k2, l2) :: valuesAdd rest ka v := by
        simp [valuesAdd, h2a]
      rw [he, valuesFind_cons, valuesFind_cons]
      by_cases hk : k2 = k
      · have hka : ¬(k = ka) := fun hh => h2a (hk.trans hh)
        rw [if_pos hk, if_pos hk, if_neg hka]
      · rw [if_neg hk, if_neg hk, ih]
        by_cases hka : k = ka
        · rw [if_pos hka, if_pos hka]
          have hl : valuesList ((k2, l2) :: rest) k = valuesList rest k := by
            simp [valuesList, valuesFind_cons, hk]
          rw [hl]
        · rw [if_neg hka, if_neg hka]

theorem valuesList_valuesAdd (vs : Values) (ka v k : String) :
    valuesList (valuesAdd vs ka v) k
      = valuesList vs k ++ (if k = ka then [v] else []) := by
  unfold valuesList
  rw [valuesFind_valuesAdd]
  by_cases h : k = ka
  · rw [if_pos h, if_pos h]
    simp [valuesList]
  · rw [if_neg h, if_neg h]
    simp

theorem valuesFind_eq_none (vs : Values) (k : String) (h : k ∉ vs.map Prod.fst) :
    valuesFind vs k = none := by
  induction vs with
  | nil => rfl
  | cons kv rest ih =>
    obtain ⟨k1, l1⟩ := kv
    rw [List.map_cons, List.mem_cons] at h
    push_neg at h
    rw [valuesFind_cons, if_neg (fun hh => h.1 hh.symm), ih h.2]

theorem mem_keys_valuesAdd (vs : Values) (ka v x : String) :
    x ∈ (valuesAdd vs ka v).map Prod.fst ↔ x ∈ vs.map Prod.fst ∨ x = ka := by
  induction vs with
  | nil => simp [valuesAdd]
  | cons kv rest ih =>
    obtain ⟨k2, l2⟩ := kv
    by_cases h2a : k2 = ka
    · subst h2a
      have he : valuesAdd ((k2, l2) :: rest) k2 v = (k2, l2 ++ [v]) :: rest := by
        simp [valuesAdd]
      rw [he]
      simp only [List.map_cons, List.mem_cons]
      tauto
    · have he : valuesAdd ((k2, l2) :: rest) ka v = (k2, l2) :: valuesAdd rest ka v := by
        simp [valuesAdd, h2a]
      rw [he]
      simp only [List.map_cons, List.mem_cons, ih]
      tauto

theorem nodup_keys_valuesAdd (vs : Values) (k1 v : String)
    (h : (vs.map Prod.fst).Nodup) : ((valuesAdd vs k1 v).map Prod.fst).Nodup := by
  induction vs with
  | nil => simp [valuesAdd]
  | cons kv rest ih =>
    obtain ⟨k2, l2⟩ := kv
    rw [List.map_cons, List.nodup_cons] at h
    obtain ⟨hnotin, hnd⟩ := h
    by_cases h21 : k2 = k1
    · subst h21
      have he : valuesAdd ((k2, l2) :: rest) k2 v = (k2, l2 ++ [v]) :: rest := by
        simp [valuesAdd]
      rw [he, List.map_cons, List.nodup_cons]
      exact ⟨hnotin, hnd⟩
    · have he : valuesAdd ((k2, l2) :: rest) k1 v = (k2, l2) :: valuesAdd rest k1 v := by
        simp [valuesAdd, h21]
      rw [he, List.map_cons, List.nodup_cons]
      refine ⟨?_, ih hnd⟩
      intro hmem
      rcases (mem_keys_valuesAdd rest k1 v k2).mp hmem with hm | hm
      · exact hnotin hm
      · exact h21 hm

theorem parseQuerySeg_nodup (acc : Values × Bool) (seg : String)
    (h : (acc.1.map Prod.fst).Nodup) :
    ((parseQuerySeg acc seg).1.map Prod.fst).Nodup := by
  unfold parseQuerySeg
  split
  · exact h
  · split
    · exact h
    · cases h1 : queryUnescape (cutChar '=' seg).1 with
      | none => simpa using h
      | some k =>
        cases h2 : queryUnescape (cutChar '=' seg).2 with
        | none => simpa using h
        | some v => simpa using nodup_keys_valuesAdd acc.1 k v h

theorem foldl_parseQuerySeg_nodup (segs : List String) :
    ∀ acc : Values × Bool, (acc.1.map Prod.fst).Nodup →
      ((segs.foldl parseQuerySeg acc).1.map Prod.fst).Nodup := by
  induction segs with
  | nil => exact fun acc h => h
  | cons seg rest ih =>
    intro acc h
    exact ih (parseQuerySeg acc seg) (parseQuerySeg_nodup acc seg h)

theorem ParseQuery_nodup (s : String) (q : Values) (h : ParseQuery s = some q) :
    (q.map Prod.fst).Nodup := by
  have h2 : (if (parseQueryCore s).2 = true then some (parseQueryCore s).1 else none)
      = some q := h
  by_cases hc : (parseQueryCore s).2 = true
  · rw [if_pos hc] at h2
    cases h2
    exact foldl_parseQuerySeg_nodup (splitOnChar '&' s) ([], true) (by simp)
  · rw [if_neg hc] at h2
    cases h2

theorem mergeQueryParams_valuesList (q : Values) :
    ∀ (orig : Values) (k : String), (q.map Prod.fst).Nodup →
      valuesList (mergeQueryParams orig q) k
        = valuesList orig k ++ (match valuesFind q k with
            | some vs => [String.join vs]
            | none => []) := by
  induction q with
  | nil =>
    intro orig k _
    simp [mergeQueryParams, valuesFind]
  | cons kv rest ih =>
    intro orig k h
    obtain ⟨k1, vs1⟩ := kv
    rw [List.map_cons, List.nodup_cons] at h
    obtain ⟨hnotin, hnd⟩ := h
    have hm : mergeQueryParams orig ((k1, vs1) :: rest)
        = mergeQueryParams (valuesAdd orig k1 (String.join vs1)) rest := rfl
    rw [hm, ih _ k hnd, valuesList_valuesAdd, valuesFind_cons]
    by_cases hk : k = k1
    · rw [if_pos hk, if_pos hk.symm]
      subst hk
      rw [valuesFind_eq_none rest k hnotin]
      simp
    · rw [if_neg hk, if_neg (fun hh => hk hh.symm)]
      simp

/-- Claim C7 (amended): the query-params pane is merged into the URL query
by addition — for each parsed key, `Add` of the concatenation of that key
values — so keys already present in the URL keep their existing values in
front and each parsed key contributes exactly one appended value (its values
concatenated), rather than one appended value per parsed pair.  `ParseQuery`
always yields per-key-unique results, which the merge equation assumes. -/
theorem C7_theorem :
    (∀ (s : String) (q : Values), ParseQuery s = some q → (q.map Prod.fst).Nodup) ∧
    (∀ (orig q : Values) (k : String), (q.map Prod.fst).Nodup →
      valuesList (mergeQueryParams orig q) k
        = valuesList orig k ++ (match valuesFind q k with
            | some vs => [String.join vs]
            | none => [])) :=
  ⟨ParseQuery_nodup, fun orig q k h => mergeQueryParams_valuesList q orig k h⟩

/-- Claim C7, as stated, is false on duplicate keys in the pane: for the
pane text `a=1`/`a=2` merged into the URL query `a=0`, adding every parsed
pair (the claim reading, rendered as `mergeQueryParamsPairwise`) would give
the values `0, 1, 2` under `a`, but the code adds the single concatenation
`12`, encoding to `a=0&a=12`. -/
theorem C7_counterexample :
    ParseQuery (replaceChar '\n' '&' "a=1\na=2") = some [("a", ["1", "2"])] ∧
    mergeQueryParams (urlQueryValues "a=0") [("a", ["1", "2"])] = [("a", ["0", "12"])] ∧
    mergeQueryParamsPairwise (urlQueryValues "a=0") [("a", ["1", "2"])]
      = [("a", ["0", "1", "2"])] ∧
    mergeQueryParams (urlQueryValues "a=0") [("a", ["1", "2"])]
      ≠ mergeQueryParamsPairwise (urlQueryValues "a=0") [("a", ["1", "2"])] ∧
    valuesEncode (mergeQueryParams (urlQueryValues "a=0") [("a", ["1", "2"])])
      = "a=0&a=12" := by
  decide

/-- Witness for C7: the merge equation applied at the concrete URL query
`a=0` and parsed pane values `1`, `2`. -/
theorem C7_witness :
    valuesList (mergeQueryParams [("a", ["0"])] [("a", ["1", "2"])]) "a" = ["0", "12"] :=
  (C7_theorem.2 [("a", ["0"])] [("a", ["1", "2"])] "a" (by decide)).trans (by decide)

end Wuzz
